import Mathlib

/-!
Verification of the richclip receive protocol (`src/protocol/recv.rs`).

A byte stream is modelled as a `List Nat` (each element a byte value below
256).  Rust `String`s are modelled by their UTF-8 byte sequences
(`List Nat`): `String::from_utf8` succeeds exactly on valid UTF-8 byte
sequences and preserves the bytes, and Rust string equality is equality of
those byte sequences.  Each `bail!`/`context` failure site of the source is
mapped to a constructor of `DecodeError`.  The reader abstraction of the
source (sequential reads, `read_exact`, EOF when a `read` returns 0 bytes)
becomes explicit state passing of the remaining byte list.
-/

/-- Error kinds, one per distinguishable failure site of `recv.rs`. -/
inductive DecodeError where
  /-- magic header does not match (bail at recv.rs line 42) -/
  | badMagic : DecodeError
  /-- protocol version byte does not match (bail at line 51) -/
  | unsupportedVersion : DecodeError
  /-- a `read_exact` could not be satisfied (any `context` on a failed read) -/
  | truncatedInput : DecodeError
  /-- a mime-type payload is not valid UTF-8 (line 131) -/
  | invalidEncoding : DecodeError
  /-- a content section arrived with an empty accumulator (line 71) -/
  | contentWithoutMimeType : DecodeError
  /-- an unknown section tag byte, carried for diagnostics (line 81) -/
  | unknownSectionTag : Nat → DecodeError
  /-- oneshot mode: all candidate mime types were empty (line 105) -/
  | noValidMimeType : DecodeError
  deriving DecidableEq, Repr

/-- The output value type `SourceDataItem`: mime-type labels (each the UTF-8
bytes of a Rust `String`) plus one binary content payload. -/
structure SourceDataItem where
  mime_type : List (List Nat)
  content : List Nat
  deriving DecidableEq, Repr

/-- Model of `Read::read_exact` on an in-memory stream: succeeds iff `n`
bytes remain, returning the bytes read and the rest of the stream. -/
def read_exact (n : Nat) (s : List Nat) : Option (List Nat × List Nat) :=
  if n ≤ s.length then some (s.take n, s.drop n) else none

/-- Big-endian u32 from a 4-byte buffer, as computed at recv.rs lines
120-123 and 142-145: `(b0 << 24) + (b1 << 16) + (b2 << 8) + b3`. -/
def be32 (b : List Nat) : Nat :=
  b.getD 0 0 * 2 ^ 24 + b.getD 1 0 * 2 ^ 16 + b.getD 2 0 * 2 ^ 8 + b.getD 3 0

/-- Whether a byte is a UTF-8 continuation byte (`0x80..=0xBF`). -/
def contByte (b : Nat) : Bool := 128 ≤ b && b ≤ 191

/-- Validity of a byte sequence as UTF-8, the criterion of Rust's
`String::from_utf8` (core's `run_utf8_validation`): ASCII is one byte,
leading bytes `0xC2..=0xDF`, `0xE0..=0xEF`, `0xF0..=0xF4` take 1, 2, 3
continuation bytes with the usual restricted ranges after `0xE0`, `0xED`,
`0xF0`, `0xF4` (overlong forms, surrogates and values above `0x10FFFF`
rejected). -/
def validUtf8 : List Nat → Bool
  | [] => true
  | b :: rest =>
    if b ≤ 127 then validUtf8 rest
    else if 194 ≤ b && b ≤ 223 then
      match rest with
      | c1 :: r => contByte c1 && validUtf8 r
      | [] => false
    else if b == 224 then
      match rest with
      | c1 :: c2 :: r => (160 ≤ c1 && c1 ≤ 191) && contByte c2 && validUtf8 r
      | _ => false
    else if (225 ≤ b && b ≤ 236) || (238 ≤ b && b ≤ 239) then
      match rest with
      | c1 :: c2 :: r => contByte c1 && contByte c2 && validUtf8 r
      | _ => false
    else if b == 237 then
      match rest with
      | c1 :: c2 :: r => (128 ≤ c1 && c1 ≤ 159) && contByte c2 && validUtf8 r
      | _ => false
    else if b == 240 then
      match rest with
      | c1 :: c2 :: c3 :: r =>
        (144 ≤ c1 && c1 ≤ 191) && contByte c2 && contByte c3 && validUtf8 r
      | _ => false
    else if 241 ≤ b && b ≤ 243 then
      match rest with
      | c1 :: c2 :: c3 :: r =>
        contByte c1 && contByte c2 && contByte c3 && validUtf8 r
      | _ => false
    else if b == 244 then
      match rest with
      | c1 :: c2 :: c3 :: r =>
        (128 ≤ c1 && c1 ≤ 143) && contByte c2 && contByte c3 && validUtf8 r
      | _ => false
    else false

/-- The supported protocol version byte (`PROTOCAL_VER` in the source). -/
def PROTOCAL_VER : Nat := 0

/-- The 4-byte magic header constant. -/
def MAGIC : List Nat := [0x20, 0x09, 0x02, 0x14]

/-- Model of `read_mime_types` (recv.rs lines 115-135): read a 4-byte
big-endian length, then that many payload bytes, then require the payload
to be valid UTF-8.  Returns the mime-type string (as its bytes) and the
remaining stream. -/
def read_mime_types (s : List Nat) : Except DecodeError (List Nat × List Nat) :=
  match read_exact 4 s with
  | none => .error .truncatedInput
  | some (size_buf, s1) =>
    match read_exact (be32 size_buf) s1 with
    | none => .error .truncatedInput
    | some (buf, s2) =>
      if validUtf8 buf then .ok (buf, s2) else .error .invalidEncoding

/-- Model of `read_content` (recv.rs lines 137-154): read a 4-byte
big-endian length, then that many payload bytes, returned unchanged. -/
def read_content (s : List Nat) : Except DecodeError (List Nat × List Nat) :=
  match read_exact 4 s with
  | none => .error .truncatedInput
  | some (size_buf, s1) =>
    match read_exact (be32 size_buf) s1 with
    | none => .error .truncatedInput
    | some (buf, s2) => .ok (buf, s2)

/-- The section loop of `receive_data_bulk` (recv.rs lines 57-84).
`type_list` is the pending mime-type accumulator, `ret` the items built so
far.  Each iteration reads one tag byte (EOF ends the loop), dispatching on
`'M'` (77) and `'C'` (67).  The `fuel` argument makes the recursion
structural; `receive_data_bulk` passes the stream length, which suffices
because every iteration consumes at least the tag byte
(`bulkLoop_fuel_irrelevant` below proves the fuel does not matter). -/
def bulkLoop : Nat → List Nat → List (List Nat) → List SourceDataItem →
    Except DecodeError (List SourceDataItem)
  | _, [], _, ret => .ok ret
  | 0, _ :: _, _, _ => .error .truncatedInput
  | fuel + 1, flag :: rest, type_list, ret =>
    if flag == 77 then
      match read_mime_types rest with
      | .error e => .error e
      | .ok (mime_type, s2) => bulkLoop fuel s2 (type_list ++ [mime_type]) ret
    else if flag == 67 then
      if type_list.isEmpty then .error .contentWithoutMimeType
      else
        match read_content rest with
        | .error e => .error e
        | .ok (content, s2) =>
          bulkLoop fuel s2 [] (ret ++ [⟨type_list, content⟩])
    else .error (.unknownSectionTag flag)

/-- The section loop with its canonical fuel, the length of the remaining
stream (always enough, since each iteration consumes the tag byte). -/
def bulkRun (s : List Nat) (type_list : List (List Nat))
    (ret : List SourceDataItem) : Except DecodeError (List SourceDataItem) :=
  bulkLoop s.length s type_list ret

/-- Model of `receive_data_bulk` (recv.rs lines 35-87): check the 4-byte
magic, check the version byte, then run the section loop with an empty
accumulator and an empty result list. -/
def receive_data_bulk (s : List Nat) : Except DecodeError (List SourceDataItem) :=
  match read_exact 4 s with
  | none => .error .truncatedInput
  | some (magic, s1) =>
    if magic ≠ MAGIC then .error .badMagic
    else
      match read_exact 1 s1 with
      | none => .error .truncatedInput
      | some (ver, s2) =>
        if ver ≠ [PROTOCAL_VER] then .error .unsupportedVersion
        else bulkRun s2 [] []

/-- Model of `receive_data_oneshot` (recv.rs lines 89-113): the whole
stream is the content (`read_to_end` on an in-memory stream always
succeeds), the caller-supplied mime types are filtered of empty strings,
and an all-empty candidate list is an error. -/
def receive_data_oneshot (s : List Nat) (mime_types : List (List Nat)) :
    Except DecodeError (List SourceDataItem) :=
  let filtered := mime_types.filter (fun t => !t.isEmpty)
  if filtered.isEmpty then .error .noValidMimeType
  else .ok [⟨filtered, s⟩]

instance {ε α : Type} [DecidableEq ε] [DecidableEq α] : DecidableEq (Except ε α) := fun
  | .error e, .error f =>
    if h : e = f then .isTrue (by rw [h]) else .isFalse (by simp [h])
  | .error _, .ok _ => .isFalse (by simp)
  | .ok _, .error _ => .isFalse (by simp)
  | .ok a, .ok b =>
    if h : a = b then .isTrue (by rw [h]) else .isFalse (by simp [h])

/-- Big-endian 4-byte encoding of a u32 value, the inverse of `be32` on
values below `2^32`; used to build conforming wire streams. -/
def be32enc (n : Nat) : List Nat :=
  [n / 2 ^ 24 % 256, n / 2 ^ 16 % 256, n / 2 ^ 8 % 256, n % 256]

/-- One wire section: tag byte, big-endian length, payload. -/
def encodeSection (tag : Nat) (payload : List Nat) : List Nat :=
  tag :: (be32enc payload.length ++ payload)

/-- One item group on the wire: its `'M'` sections in declaration order
followed by its `'C'` section. -/
def encodeGroup (g : List (List Nat) × List Nat) : List Nat :=
  (g.1.map (encodeSection 77)).flatten ++ encodeSection 67 g.2

/-- A whole bulk stream: magic, version, then the groups in order. -/
def encodeStream (gs : List (List (List Nat) × List Nat)) : List Nat :=
  MAGIC ++ PROTOCAL_VER :: (gs.map encodeGroup).flatten

/-- Well-formedness of one group, matching the spec's validity conditions:
at least one mime type before the content, every mime payload valid UTF-8,
and every length-prefixed payload short enough for its u32 length field. -/
def WFGroup (g : List (List Nat) × List Nat) : Prop :=
  g.1 ≠ [] ∧ (∀ m ∈ g.1, validUtf8 m = true ∧ m.length < 2 ^ 32) ∧
    g.2.length < 2 ^ 32

/-- Unfolding of a successful `read_exact`. -/
lemma read_exact_some {n : Nat} {s a b : List Nat}
    (h : read_exact n s = some (a, b)) :
    a = s.take n ∧ b = s.drop n ∧ n ≤ s.length := by
  unfold read_exact at h
  split at h
  · simp only [Option.some.injEq, Prod.mk.injEq] at h
    exact ⟨h.1.symm, h.2.symm, by assumption⟩
  · cases h

/-- `read_exact` succeeds on an append whose left part has the right
length, splitting it off exactly. -/
lemma read_exact_append (a b : List Nat) :
    read_exact a.length (a ++ b) = some (a, b) := by
  unfold read_exact
  rw [if_pos (by simp)]
  simp

/-- `read_exact` fails exactly when the stream is too short. -/
lemma read_exact_eq_none {n : Nat} {s : List Nat} :
    read_exact n s = none ↔ s.length < n := by
  unfold read_exact
  split
  · constructor
    · intro h; cases h
    · intro h; omega
  · constructor
    · intro _; omega
    · intro _; rfl

/-- `be32enc` always produces exactly 4 bytes. -/
lemma be32enc_length (n : Nat) : (be32enc n).length = 4 := rfl

/-- Round trip: decoding the big-endian encoding of a value below `2^32`
gives the value back. -/
lemma be32_be32enc {n : Nat} (h : n < 2 ^ 32) : be32 (be32enc n) = n := by
  simp [be32, be32enc, List.getD]
  omega

/-- `read_mime_types` on a stream laid out as length prefix, payload,
rest: succeeds with the payload iff the payload is valid UTF-8. -/
lemma read_mime_types_encode (m rest : List Nat) (hlen : m.length < 2 ^ 32) :
    read_mime_types (be32enc m.length ++ (m ++ rest)) =
      if validUtf8 m then .ok (m, rest) else .error .invalidEncoding := by
  have h4 : read_exact 4 (be32enc m.length ++ (m ++ rest))
      = some (be32enc m.length, m ++ rest) := by
    have h := read_exact_append (be32enc m.length) (m ++ rest)
    rwa [be32enc_length] at h
  have hm : read_exact (be32 (be32enc m.length)) (m ++ rest) = some (m, rest) := by
    rw [be32_be32enc hlen]; exact read_exact_append m rest
  simp [read_mime_types, h4, hm]

/-- `read_content` on a stream laid out as length prefix, payload, rest:
always succeeds with the payload. -/
lemma read_content_encode (c rest : List Nat) (hlen : c.length < 2 ^ 32) :
    read_content (be32enc c.length ++ (c ++ rest)) = .ok (c, rest) := by
  have h4 : read_exact 4 (be32enc c.length ++ (c ++ rest))
      = some (be32enc c.length, c ++ rest) := by
    have h := read_exact_append (be32enc c.length) (c ++ rest)
    rwa [be32enc_length] at h
  have hc : read_exact (be32 (be32enc c.length)) (c ++ rest) = some (c, rest) := by
    rw [be32_be32enc hlen]; exact read_exact_append c rest
  simp [read_content, h4, hc]

/-- A successful `read_mime_types` leaves a stream no longer than its
input. -/
lemma read_mime_types_ok_length {s m s2 : List Nat}
    (h : read_mime_types s = .ok (m, s2)) : s2.length ≤ s.length := by
  unfold read_mime_types at h
  cases h4 : read_exact 4 s with
  | none => rw [h4] at h; cases h
  | some p =>
    obtain ⟨size_buf, s1⟩ := p
    rw [h4] at h
    simp only [] at h
    cases hL : read_exact (be32 size_buf) s1 with
    | none => rw [hL] at h; simp only [] at h; cases h
    | some q =>
      obtain ⟨buf, s2'⟩ := q
      rw [hL] at h
      simp only [] at h
      split at h
      · simp only [Except.ok.injEq, Prod.mk.injEq] at h
        obtain ⟨-, hs⟩ := h
        subst hs
        obtain ⟨-, hs1, -⟩ := read_exact_some h4
        obtain ⟨-, hs2, -⟩ := read_exact_some hL
        subst hs2; subst hs1
        simp [List.length_drop]
      · cases h

/-- A successful `read_content` leaves a stream no longer than its
input. -/
lemma read_content_ok_length {s c s2 : List Nat}
    (h : read_content s = .ok (c, s2)) : s2.length ≤ s.length := by
  unfold read_content at h
  cases h4 : read_exact 4 s with
  | none => rw [h4] at h; cases h
  | some p =>
    obtain ⟨size_buf, s1⟩ := p
    rw [h4] at h
    simp only [] at h
    cases hL : read_exact (be32 size_buf) s1 with
    | none => rw [hL] at h; simp only [] at h; cases h
    | some q =>
      obtain ⟨buf, s2'⟩ := q
      rw [hL] at h
      simp only [] at h
      simp only [Except.ok.injEq, Prod.mk.injEq] at h
      obtain ⟨-, hs⟩ := h
      subst hs
      obtain ⟨-, hs1, -⟩ := read_exact_some h4
      obtain ⟨-, hs2, -⟩ := read_exact_some hL
      subst hs2; subst hs1
      simp [List.length_drop]

/-- The loop result does not depend on the fuel, as long as the fuel is at
least the stream length (each iteration consumes at least the tag byte). -/
lemma bulkLoop_fuel_irrelevant (f₁ : Nat) :
    ∀ (f₂ : Nat) (s : List Nat) (acc : List (List Nat))
      (ret : List SourceDataItem), s.length ≤ f₁ → s.length ≤ f₂ →
      bulkLoop f₁ s acc ret = bulkLoop f₂ s acc ret := by
  induction f₁ with
  | zero =>
    intro f₂ s acc ret h1 _
    have hs : s = [] := List.length_eq_zero.mp (Nat.le_zero.mp h1)
    subst hs
    cases f₂ <;> rfl
  | succ g ih =>
    intro f₂ s acc ret h1 h2
    cases s with
    | nil => cases f₂ <;> rfl
    | cons flag rest =>
      simp only [List.length_cons] at h1 h2
      cases f₂ with
      | zero => omega
      | succ g₂ =>
        simp only [bulkLoop]
        cases h77 : (flag == 77) with
        | true =>
          simp only [h77, if_true]
          cases hr : read_mime_types rest with
          | error e => simp [hr]
          | ok p =>
            obtain ⟨m, s2⟩ := p
            have hlen := read_mime_types_ok_length hr
            simp only [hr]
            exact ih g₂ s2 (acc ++ [m]) ret (by omega) (by omega)
        | false =>
          simp only [h77, Bool.false_eq_true, if_false]
          cases h67 : (flag == 67) with
          | true =>
            simp only [h67, if_true]
            cases hacc : acc.isEmpty with
            | true => simp [hacc]
            | false =>
              simp only [hacc, Bool.false_eq_true, if_false]
              cases hr : read_content rest with
              | error e => simp [hr]
              | ok p =>
                obtain ⟨c, s2⟩ := p
                have hlen := read_content_ok_length hr
                simp only [hr]
                exact ih g₂ s2 [] (ret ++ [⟨acc, c⟩]) (by omega) (by omega)
          | false =>
            simp [h67]

/-- The loop on an exhausted stream returns the items built so far. -/
lemma bulkRun_nil (acc : List (List Nat)) (ret : List SourceDataItem) :
    bulkRun [] acc ret = .ok ret := rfl

/-- One `'M'` section: a valid UTF-8 payload is appended to the pending
accumulator, an invalid one aborts the whole decode. -/
lemma bulkRun_step_mime (m rest : List Nat) (acc : List (List Nat))
    (ret : List SourceDataItem) (hlen : m.length < 2 ^ 32) :
    bulkRun (encodeSection 77 m ++ rest) acc ret =
      if validUtf8 m then bulkRun rest (acc ++ [m]) ret
      else .error .invalidEncoding := by
  have hstream : encodeSection 77 m ++ rest
      = 77 :: (be32enc m.length ++ (m ++ rest)) := by
    simp [encodeSection]
  rw [bulkRun, hstream]
  simp only [List.length_cons, bulkLoop]
  rw [if_pos (show ((77 : Nat) == 77) = true from rfl),
    read_mime_types_encode m rest hlen]
  cases hv : validUtf8 m with
  | true =>
    simp only [hv, if_true]
    rw [bulkRun]
    exact bulkLoop_fuel_irrelevant _ _ _ _ _
      (by rw [List.length_append, List.length_append, be32enc_length]; omega)
      (le_refl _)
  | false =>
    simp [hv]

/-- One `'C'` section with a non-empty accumulator: the accumulator and
the payload become a finished item and the accumulator resets. -/
lemma bulkRun_step_content (c rest : List Nat) (acc : List (List Nat))
    (ret : List SourceDataItem) (hlen : c.length < 2 ^ 32) (hacc : acc ≠ []) :
    bulkRun (encodeSection 67 c ++ rest) acc ret =
      bulkRun rest [] (ret ++ [⟨acc, c⟩]) := by
  have hstream : encodeSection 67 c ++ rest
      = 67 :: (be32enc c.length ++ (c ++ rest)) := by
    simp [encodeSection]
  rw [bulkRun, hstream]
  simp only [List.length_cons, bulkLoop]
  have hne : acc.isEmpty = false := by
    cases acc with
    | nil => exact absurd rfl hacc
    | cons a l => rfl
  rw [if_neg (show ¬ ((67 : Nat) == 77) = true by decide),
    if_pos (show ((67 : Nat) == 67) = true from rfl),
    if_neg (by simp [hne]), read_content_encode c rest hlen]
  simp only []
  rw [bulkRun]
  exact bulkLoop_fuel_irrelevant _ _ _ _ _
    (by rw [List.length_append, List.length_append, be32enc_length]; omega)
    (le_refl _)

/-- A `'C'` tag while the accumulator is empty is an immediate error,
whatever follows the tag byte. -/
lemma bulkRun_content_empty_acc (rest : List Nat) (ret : List SourceDataItem) :
    bulkRun (67 :: rest) [] ret = .error .contentWithoutMimeType := by
  rw [bulkRun]
  simp [bulkLoop]

/-- A run of `'M'` sections appends its payloads to the accumulator in
declaration order. -/
lemma bulkRun_mimes (ms : List (List Nat)) :
    ∀ (rest : List Nat) (acc : List (List Nat)) (ret : List SourceDataItem),
      (∀ m ∈ ms, validUtf8 m = true ∧ m.length < 2 ^ 32) →
      bulkRun ((ms.map (encodeSection 77)).flatten ++ rest) acc ret =
        bulkRun rest (acc ++ ms) ret := by
  induction ms with
  | nil => intro rest acc ret _; simp
  | cons m ms ih =>
    intro rest acc ret h
    obtain ⟨hv, hlen⟩ := h m (by simp)
    have hrec : ∀ x ∈ ms, validUtf8 x = true ∧ x.length < 2 ^ 32 :=
      fun x hx => h x (by simp [hx])
    simp only [List.map_cons, List.flatten_cons, List.append_assoc]
    rw [bulkRun_step_mime _ _ _ _ hlen, if_pos hv, ih _ _ _ hrec]
    simp

/-- A run of well-formed groups finishes one item per group, in stream
order, leaving an empty accumulator. -/
lemma bulkRun_groups (gs : List (List (List Nat) × List Nat)) :
    ∀ (rest : List Nat) (ret : List SourceDataItem),
      (∀ g ∈ gs, WFGroup g) →
      bulkRun ((gs.map encodeGroup).flatten ++ rest) [] ret =
        bulkRun rest [] (ret ++ gs.map fun g => ⟨g.1, g.2⟩) := by
  induction gs with
  | nil => intro rest ret _; simp
  | cons g gs ih =>
    intro rest ret h
    obtain ⟨hne, hms, hlen⟩ := h g (by simp)
    have hrec : ∀ x ∈ gs, WFGroup x := fun x hx => h x (by simp [hx])
    simp only [List.map_cons, List.flatten_cons, List.append_assoc, encodeGroup]
    rw [bulkRun_mimes _ _ _ _ hms,
      bulkRun_step_content _ _ _ _ hlen (by simpa using hne),
      ih _ _ hrec]
    simp

/-- A stream starting with the correct magic and version runs the section
loop on the remainder with empty accumulator and result list. -/
lemma receive_data_bulk_header (body : List Nat) :
    receive_data_bulk (MAGIC ++ PROTOCAL_VER :: body) = bulkRun body [] [] := by
  unfold receive_data_bulk
  rw [show read_exact 4 (MAGIC ++ PROTOCAL_VER :: body)
      = some (MAGIC, PROTOCAL_VER :: body) from read_exact_append MAGIC _]
  simp only [] 
  rw [if_neg (by simp)]
  rw [show read_exact 1 (PROTOCAL_VER :: body) = some ([PROTOCAL_VER], body)
      from read_exact_append [PROTOCAL_VER] body]
  simp only []
  rw [if_neg (by simp)]

/-- Loop invariant: if every already-built item has a non-empty mime-type
list, every item of a successful run does too (a `'C'` section is only
accepted with a non-empty accumulator). -/
lemma bulkLoop_mime_nonempty (f : Nat) :
    ∀ (s : List Nat) (acc : List (List Nat)) (ret items : List SourceDataItem),
      (∀ it ∈ ret, it.mime_type ≠ []) →
      bulkLoop f s acc ret = .ok items →
      ∀ it ∈ items, it.mime_type ≠ [] := by
  induction f with
  | zero =>
    intro s acc ret items hret h
    cases s with
    | nil =>
      simp only [bulkLoop, Except.ok.injEq] at h
      subst h; exact hret
    | cons a l => simp only [bulkLoop] at h; cases h
  | succ g ih =>
    intro s acc ret items hret h
    cases s with
    | nil =>
      simp only [bulkLoop, Except.ok.injEq] at h
      subst h; exact hret
    | cons flag rest =>
      simp only [bulkLoop] at h
      by_cases h77 : (flag == 77) = true
      · rw [if_pos h77] at h
        cases hr : read_mime_types rest with
        | error e => rw [hr] at h; simp only [] at h; cases h
        | ok p =>
          obtain ⟨m, s2⟩ := p
          rw [hr] at h; simp only [] at h
          exact ih s2 (acc ++ [m]) ret items hret h
      · rw [if_neg h77] at h
        by_cases h67 : (flag == 67) = true
        · rw [if_pos h67] at h
          cases hacc : acc.isEmpty with
          | true => rw [hacc] at h; simp only [if_true] at h; cases h
          | false =>
            rw [hacc] at h
            simp only [Bool.false_eq_true, if_false] at h
            cases hr : read_content rest with
            | error e => rw [hr] at h; simp only [] at h; cases h
            | ok p =>
              obtain ⟨c, s2⟩ := p
              rw [hr] at h; simp only [] at h
              refine ih s2 [] (ret ++ [⟨acc, c⟩]) items ?_ h
              intro it hit
              rcases List.mem_append.mp hit with hmem | hmem
              · exact hret it hmem
              · simp only [List.mem_singleton] at hmem
                subst hmem
                simpa [List.isEmpty_iff] using hacc
        · rw [if_neg h67] at h; cases h

/-- C1: for every stream with the correct magic, the supported version and
a well-formed section sequence (each content section preceded since the
last content section or stream start by one or more mime-type sections,
every length prefix satisfied), `receive_data_bulk` succeeds and returns
one item per content section in stream order, each carrying exactly the
mime-type strings declared since the previous content section in
declaration order, and exactly that content section's payload bytes. -/
theorem c1_bulk_decodes_valid_streams (gs : List (List (List Nat) × List Nat))
    (h : ∀ g ∈ gs, WFGroup g) :
    receive_data_bulk (encodeStream gs) =
      .ok (gs.map fun g => ⟨g.1, g.2⟩) := by
  rw [show encodeStream gs
      = MAGIC ++ PROTOCAL_VER :: (gs.map encodeGroup).flatten from rfl,
    receive_data_bulk_header]
  have h2 := bulkRun_groups gs [] [] h
  simpa [bulkRun_nil] using h2

theorem c1_bulk_decodes_valid_streams_witness :
    (∀ g ∈ [([[116, 101, 120, 116]], [71, 79, 79, 68])], WFGroup g) ∧
    receive_data_bulk
        (encodeStream [([[116, 101, 120, 116]], [71, 79, 79, 68])]) =
      .ok [⟨[[116, 101, 120, 116]], [71, 79, 79, 68]⟩] :=
  ⟨by simp only [WFGroup]; decide,
   c1_bulk_decodes_valid_streams _ (by simp only [WFGroup]; decide)⟩

/-- C2: any input whose first four bytes differ from the magic constant
makes `receive_data_bulk` fail with `badMagic`, whatever follows; no
section is consumed and no item list is produced. -/
theorem c2_bad_magic (m0 m1 m2 m3 : Nat) (rest : List Nat)
    (h : [m0, m1, m2, m3] ≠ MAGIC) :
    receive_data_bulk (m0 :: m1 :: m2 :: m3 :: rest) = .error .badMagic := by
  unfold receive_data_bulk
  have h4 : read_exact 4 (m0 :: m1 :: m2 :: m3 :: rest)
      = some ([m0, m1, m2, m3], rest) := by
    simpa using read_exact_append [m0, m1, m2, m3] rest
  rw [h4]
  simp only []
  rw [if_pos h]

theorem c2_bad_magic_witness :
    [0x02, 0x09, 0x02, 0x14] ≠ MAGIC ∧
    receive_data_bulk [0x02, 0x09, 0x02, 0x14, 0, 77] = .error .badMagic :=
  ⟨by decide, c2_bad_magic 0x02 0x09 0x02 0x14 [0, 77] (by decide)⟩

/-- C3: after a correct magic, a version byte different from the supported
constant makes `receive_data_bulk` fail with `unsupportedVersion`,
regardless of the bytes that follow. -/
theorem c3_unsupported_version (v : Nat) (rest : List Nat)
    (hv : v ≠ PROTOCAL_VER) :
    receive_data_bulk (MAGIC ++ v :: rest) = .error .unsupportedVersion := by
  unfold receive_data_bulk
  rw [show read_exact 4 (MAGIC ++ v :: rest) = some (MAGIC, v :: rest)
    from read_exact_append MAGIC _]
  simp only []
  rw [if_neg (by simp)]
  rw [show read_exact 1 (v :: rest) = some ([v], rest)
    from read_exact_append [v] rest]
  simp only []
  rw [if_pos (by simpa using hv)]

theorem c3_unsupported_version_witness :
    (99 : Nat) ≠ PROTOCAL_VER ∧
    receive_data_bulk (MAGIC ++ 99 :: [77]) = .error .unsupportedVersion :=
  ⟨by decide, c3_unsupported_version 99 [77] (by decide)⟩

/-- C4: with a valid header and any number of complete well-formed groups
already decoded, a content tag while the pending accumulator is empty
makes `receive_data_bulk` fail with `contentWithoutMimeType`, whatever
follows the tag byte; no partial item list is returned. -/
theorem c4_content_without_mime_type (gs : List (List (List Nat) × List Nat))
    (rest : List Nat) (h : ∀ g ∈ gs, WFGroup g) :
    receive_data_bulk (encodeStream gs ++ 67 :: rest) =
      .error .contentWithoutMimeType := by
  have hstream : encodeStream gs ++ 67 :: rest
      = MAGIC ++ PROTOCAL_VER :: ((gs.map encodeGroup).flatten ++ 67 :: rest) := by
    simp [encodeStream]
  rw [hstream, receive_data_bulk_header, bulkRun_groups gs _ _ h,
    bulkRun_content_empty_acc]

theorem c4_content_without_mime_type_witness :
    (∀ g ∈ ([] : List (List (List Nat) × List Nat)), WFGroup g) ∧
    receive_data_bulk (encodeStream [] ++ 67 :: [0, 0, 0, 0]) =
      .error .contentWithoutMimeType :=
  ⟨by simp, c4_content_without_mime_type [] [0, 0, 0, 0] (by simp)⟩

/-- C5: a stream of well-formed groups followed by one or more trailing
mime-type sections and a clean end of stream decodes successfully to
exactly the items completed by content sections; the trailing accumulated
labels are dropped with no item and no error. -/
theorem c5_trailing_mime_types_dropped (gs : List (List (List Nat) × List Nat))
    (ts : List (List Nat)) (hgs : ∀ g ∈ gs, WFGroup g)
    (hts : ∀ m ∈ ts, validUtf8 m = true ∧ m.length < 2 ^ 32)
    (hne : ts ≠ []) :
    receive_data_bulk (encodeStream gs ++ (ts.map (encodeSection 77)).flatten) =
      .ok (gs.map fun g => ⟨g.1, g.2⟩) := by
  have hstream : encodeStream gs ++ (ts.map (encodeSection 77)).flatten
      = MAGIC ++ PROTOCAL_VER ::
        ((gs.map encodeGroup).flatten ++ (ts.map (encodeSection 77)).flatten) := by
    simp [encodeStream]
  rw [hstream, receive_data_bulk_header, bulkRun_groups gs _ _ hgs]
  have h3 := bulkRun_mimes ts [] [] ([] ++ gs.map fun g => ⟨g.1, g.2⟩) hts
  simpa [bulkRun_nil] using h3

theorem c5_trailing_mime_types_dropped_witness :
    (∀ g ∈ [([[84]], [66])], WFGroup g) ∧
    (∀ m ∈ [[104]], validUtf8 m = true ∧ m.length < 2 ^ 32) ∧
    [[104]] ≠ ([] : List (List Nat)) ∧
    receive_data_bulk
        (encodeStream [([[84]], [66])] ++
          ([[104]].map (encodeSection 77)).flatten) =
      .ok [⟨[[84]], [66]⟩] :=
  ⟨by simp only [WFGroup]; decide, by decide, by decide,
   c5_trailing_mime_types_dropped [([[84]], [66])] [[104]]
     (by simp only [WFGroup]; decide) (by decide) (by decide)⟩

/-- Truncation of a length-prefixed block: if fewer than 4 bytes remain
for the length field, or fewer than the declared `L` bytes remain for the
payload, both readers fail with `truncatedInput`. -/
lemma read_block_truncated (s : List Nat) (h : s.length < 4 + be32 (s.take 4)) :
    read_content s = .error .truncatedInput ∧
    read_mime_types s = .error .truncatedInput := by
  by_cases h4 : s.length < 4
  · have hn : read_exact 4 s = none := read_exact_eq_none.mpr h4
    constructor
    · unfold read_content; rw [hn]
    · unfold read_mime_types; rw [hn]
  · push_neg at h4
    have hs : read_exact 4 s = some (s.take 4, s.drop 4) := by
      unfold read_exact; rw [if_pos h4]
    have hn : read_exact (be32 (s.take 4)) (s.drop 4) = none := by
      apply read_exact_eq_none.mpr
      rw [List.length_drop]
      omega
    constructor
    · unfold read_content; rw [hs]; simp only []; rw [hn]
    · unfold read_mime_types; rw [hs]; simp only []; rw [hn]

/-- Success of a length-prefixed block: with the length field and `L`
payload bytes available, both readers consume exactly the 4-byte length
and then exactly `L` bytes (the mime-type reader additionally checks the
payload for UTF-8 validity). -/
lemma read_block_success (s : List Nat) (h : 4 + be32 (s.take 4) ≤ s.length) :
    read_content s = .ok ((s.drop 4).take (be32 (s.take 4)),
      (s.drop 4).drop (be32 (s.take 4))) ∧
    read_mime_types s =
      if validUtf8 ((s.drop 4).take (be32 (s.take 4))) then
        .ok ((s.drop 4).take (be32 (s.take 4)),
          (s.drop 4).drop (be32 (s.take 4)))
      else .error .invalidEncoding := by
  have hs : read_exact 4 s = some (s.take 4, s.drop 4) := by
    unfold read_exact; rw [if_pos (by omega)]
  have hsz : read_exact (be32 (s.take 4)) (s.drop 4)
      = some ((s.drop 4).take (be32 (s.take 4)),
          (s.drop 4).drop (be32 (s.take 4))) := by
    unfold read_exact
    rw [if_pos (by rw [List.length_drop]; omega)]
  constructor
  · unfold read_content
    rw [hs]
    simp only []
    rw [hsz]
  · unfold read_mime_types
    rw [hs]
    simp only []
    rw [hsz]

/-- A failing mime-type read after an `\'M\'` tag aborts the loop with the
reader\'s error. -/
lemma bulkRun_mime_read_error (t : List Nat) (acc : List (List Nat))
    (ret : List SourceDataItem) (e : DecodeError)
    (h : read_mime_types t = .error e) :
    bulkRun (77 :: t) acc ret = .error e := by
  rw [bulkRun]
  simp only [List.length_cons, bulkLoop]
  rw [if_pos (show ((77 : Nat) == 77) = true from rfl), h]

/-- A failing content read after a `\'C\'` tag with a non-empty accumulator
aborts the loop with the reader\'s error. -/
lemma bulkRun_content_read_error (t : List Nat) (acc : List (List Nat))
    (ret : List SourceDataItem) (e : DecodeError) (hacc : acc ≠ [])
    (h : read_content t = .error e) :
    bulkRun (67 :: t) acc ret = .error e := by
  rw [bulkRun]
  simp only [List.length_cons, bulkLoop]
  have hne : acc.isEmpty = false := by
    cases acc with
    | nil => exact absurd rfl hacc
    | cons a l => rfl
  rw [if_neg (show ¬ ((67 : Nat) == 77) = true by decide),
    if_pos (show ((67 : Nat) == 67) = true from rfl),
    if_neg (by simp [hne]), h]

/-- C6: at every point where a length-prefixed block is read (mime-type or
content section body), the reader first reads a 4-byte big-endian u32
length `L` and then exactly `L` payload bytes; if fewer than 4 bytes
remain for the length field, or fewer than `L` bytes for the payload, the
read fails with `truncatedInput` and the whole `receive_data_bulk` call
fails with that error (shown for a truncated mime-type body after any
well-formed groups and pending mime-type sections, and for a truncated
content body after such pending sections). -/
theorem c6_length_prefixed_reads :
    (∀ s : List Nat, s.length < 4 + be32 (s.take 4) →
      read_content s = .error .truncatedInput ∧
      read_mime_types s = .error .truncatedInput) ∧
    (∀ s : List Nat, 4 + be32 (s.take 4) ≤ s.length →
      read_content s = .ok ((s.drop 4).take (be32 (s.take 4)),
        (s.drop 4).drop (be32 (s.take 4))) ∧
      read_mime_types s =
        if validUtf8 ((s.drop 4).take (be32 (s.take 4))) then
          .ok ((s.drop 4).take (be32 (s.take 4)),
            (s.drop 4).drop (be32 (s.take 4)))
        else .error .invalidEncoding) ∧
    (∀ (gs : List (List (List Nat) × List Nat)) (ms : List (List Nat))
        (t : List Nat), (∀ g ∈ gs, WFGroup g) →
      (∀ m ∈ ms, validUtf8 m = true ∧ m.length < 2 ^ 32) →
      t.length < 4 + be32 (t.take 4) →
      receive_data_bulk (encodeStream gs ++
          (ms.map (encodeSection 77)).flatten ++ 77 :: t) =
        .error .truncatedInput ∧
      (ms ≠ [] →
        receive_data_bulk (encodeStream gs ++
            (ms.map (encodeSection 77)).flatten ++ 67 :: t) =
          .error .truncatedInput)) := by
  refine ⟨read_block_truncated, read_block_success, ?_⟩
  intro gs ms t hgs hms ht
  have htr := read_block_truncated t ht
  constructor
  · have hstream : encodeStream gs ++ (ms.map (encodeSection 77)).flatten ++ 77 :: t
        = MAGIC ++ PROTOCAL_VER :: ((gs.map encodeGroup).flatten ++
            ((ms.map (encodeSection 77)).flatten ++ 77 :: t)) := by
      simp [encodeStream]
    rw [hstream, receive_data_bulk_header, bulkRun_groups gs _ _ hgs,
      bulkRun_mimes ms _ _ _ hms]
    exact bulkRun_mime_read_error _ _ _ _ htr.2
  · intro hne
    have hstream : encodeStream gs ++ (ms.map (encodeSection 77)).flatten ++ 67 :: t
        = MAGIC ++ PROTOCAL_VER :: ((gs.map encodeGroup).flatten ++
            ((ms.map (encodeSection 77)).flatten ++ 67 :: t)) := by
      simp [encodeStream]
    rw [hstream, receive_data_bulk_header, bulkRun_groups gs _ _ hgs,
      bulkRun_mimes ms _ _ _ hms]
    exact bulkRun_content_read_error _ _ _ _ (by simpa using hne) htr.1

theorem c6_length_prefixed_reads_witness :
    (read_content [0, 0, 0, 5] = .error .truncatedInput ∧
      read_mime_types [0, 0, 0, 5] = .error .truncatedInput) ∧
    (read_content [0, 0, 0, 1, 42, 7] = .ok ([42], [7]) ∧
      read_mime_types [0, 0, 0, 1, 42, 7] = .ok ([42], [7])) ∧
    receive_data_bulk (encodeStream [] ++
        ([[104]].map (encodeSection 77)).flatten ++ 77 :: [0, 0, 0, 9]) =
      .error .truncatedInput ∧
    receive_data_bulk (encodeStream [] ++
        ([[104]].map (encodeSection 77)).flatten ++ 67 :: [0, 0, 0, 9]) =
      .error .truncatedInput := by
  have hA := c6_length_prefixed_reads.1 [0, 0, 0, 5] (by decide)
  have hB := c6_length_prefixed_reads.2.1 [0, 0, 0, 1, 42, 7] (by decide)
  have hC := c6_length_prefixed_reads.2.2 [] [[104]] [0, 0, 0, 9]
    (by simp) (by decide) (by decide)
  exact ⟨hA, ⟨hB.1.trans (by decide), hB.2.trans (by decide)⟩,
    hC.1, hC.2 (by decide)⟩

/-- C7: a mime-type section whose payload is fully readable but not valid
UTF-8 makes the mime-type reader fail with `invalidEncoding`, and this is
fatal for the whole bulk decode: whatever well-formed groups preceded and
whatever bytes follow, `receive_data_bulk` returns the error and no
partial item list. -/
theorem c7_invalid_utf8_fatal (gs : List (List (List Nat) × List Nat))
    (bad rest : List Nat) (hgs : ∀ g ∈ gs, WFGroup g)
    (hbad : validUtf8 bad = false) (hlen : bad.length < 2 ^ 32) :
    receive_data_bulk (encodeStream gs ++ encodeSection 77 bad ++ rest) =
      .error .invalidEncoding := by
  have hstream : encodeStream gs ++ encodeSection 77 bad ++ rest
      = MAGIC ++ PROTOCAL_VER ::
        ((gs.map encodeGroup).flatten ++ (encodeSection 77 bad ++ rest)) := by
    simp [encodeStream]
  rw [hstream, receive_data_bulk_header, bulkRun_groups gs _ _ hgs,
    bulkRun_step_mime _ _ _ _ hlen]
  simp [hbad]

theorem c7_invalid_utf8_fatal_witness :
    (∀ g ∈ ([] : List (List (List Nat) × List Nat)), WFGroup g) ∧
    validUtf8 [0x80] = false ∧ ([0x80] : List Nat).length < 2 ^ 32 ∧
    receive_data_bulk (encodeStream [] ++ encodeSection 77 [0x80] ++ []) =
      .error .invalidEncoding :=
  ⟨by simp, by decide, by decide,
   c7_invalid_utf8_fatal [] [0x80] [] (by simp) (by decide) (by decide)⟩

/-- C8: oneshot decoding keeps the whole stream as the single content
buffer and filters the candidate labels, dropping exactly the empty ones
while preserving order; it fails with `noValidMimeType` precisely when
every candidate label is empty, and otherwise returns a single item built
from the filtered labels and the full buffer. -/
theorem c8_oneshot (s : List Nat) (mts : List (List Nat)) :
    (receive_data_oneshot s mts = .error .noValidMimeType ↔ ∀ t ∈ mts, t = []) ∧
    (mts.filter (fun t => !t.isEmpty) ≠ [] →
      receive_data_oneshot s mts =
        .ok [⟨mts.filter (fun t => !t.isEmpty), s⟩]) := by
  have key : mts.filter (fun t => !t.isEmpty) = [] ↔ ∀ t ∈ mts, t = [] := by
    rw [List.filter_eq_nil_iff]
    constructor
    · intro h t ht
      have h2 := h t ht
      simpa [List.isEmpty_iff] using h2
    · intro h t ht
      simp [List.isEmpty_iff, h t ht]
  simp only [receive_data_oneshot]
  by_cases hf : mts.filter (fun t => !t.isEmpty) = []
  · rw [hf]
    simp only [List.isEmpty_nil, if_true]
    constructor
    · simp only [true_iff]
      exact key.mp hf
    · intro hc
      exact absurd rfl hc
  · have hne : (mts.filter (fun t => !t.isEmpty)).isEmpty = false := by
      simpa [List.isEmpty_iff] using hf
    rw [hne]
    simp only [Bool.false_eq_true, if_false]
    constructor
    · constructor
      · intro h; cases h
      · intro h; exact absurd (key.mpr h) hf
    · intro _; trivial

/-- C9: every data item returned by a successful call of either decoder
carries at least one mime-type label. -/
theorem c9_mime_type_nonempty (s t : List Nat) (mts : List (List Nat))
    (items its : List SourceDataItem)
    (hb : receive_data_bulk s = .ok items)
    (ho : receive_data_oneshot t mts = .ok its) :
    (∀ it ∈ items, it.mime_type ≠ []) ∧ (∀ it ∈ its, it.mime_type ≠ []) := by
  constructor
  · unfold receive_data_bulk at hb
    cases h4 : read_exact 4 s with
    | none => rw [h4] at hb; cases hb
    | some p =>
      obtain ⟨magic, s1⟩ := p
      rw [h4] at hb
      simp only [] at hb
      split at hb
      · cases hb
      · cases h1 : read_exact 1 s1 with
        | none => rw [h1] at hb; cases hb
        | some q =>
          obtain ⟨ver, s2⟩ := q
          rw [h1] at hb
          simp only [] at hb
          split at hb
          · cases hb
          · rw [bulkRun] at hb
            exact bulkLoop_mime_nonempty _ _ _ _ _ (by simp) hb
  · simp only [receive_data_oneshot] at ho
    by_cases hf : (mts.filter (fun t2 => !t2.isEmpty)).isEmpty
    · rw [if_pos hf] at ho; cases ho
    · rw [if_neg hf] at ho
      simp only [Except.ok.injEq] at ho
      subst ho
      intro it hit
      simp only [List.mem_singleton] at hit
      subst hit
      simpa [List.isEmpty_iff] using hf

theorem c9_mime_type_nonempty_witness :
    (∀ it ∈ ([] : List SourceDataItem), it.mime_type ≠ []) ∧
    (∀ it ∈ [SourceDataItem.mk [[116]] [71]], it.mime_type ≠ []) :=
  c9_mime_type_nonempty [0x20, 0x09, 0x02, 0x14, 0] [71] [[116]] [] _
    (by decide) (by decide)

/-- C10: bulk mode accepts a zero-length mime-type section: the empty
string joins the pending accumulator, counts as a preceding mime type for
the following content section (which therefore succeeds instead of
failing with `contentWithoutMimeType`), and appears in the resulting
item's mime-type list — bulk mode never filters empty labels. -/
theorem c10_bulk_accepts_empty_mime (ms : List (List Nat)) (c : List Nat)
    (hmem : [] ∈ ms)
    (hms : ∀ m ∈ ms, validUtf8 m = true ∧ m.length < 2 ^ 32)
    (hc : c.length < 2 ^ 32) :
    receive_data_bulk (MAGIC ++ PROTOCAL_VER ::
        ((ms.map (encodeSection 77)).flatten ++ encodeSection 67 c)) =
      .ok [⟨ms, c⟩] ∧ [] ∈ (SourceDataItem.mk ms c).mime_type := by
  refine ⟨?_, hmem⟩
  rw [receive_data_bulk_header]
  have hone := bulkRun_mimes ms (encodeSection 67 c) [] [] hms
  rw [hone]
  have hcontent := bulkRun_step_content c [] ([] ++ ms) []
    hc (by simpa using List.ne_nil_of_mem hmem)
  rw [show encodeSection 67 c = encodeSection 67 c ++ [] by simp, hcontent]
  simp [bulkRun_nil]

theorem c10_bulk_accepts_empty_mime_witness :
    ([] : List Nat) ∈ [([] : List Nat)] ∧
    (∀ m ∈ [([] : List Nat)], validUtf8 m = true ∧ m.length < 2 ^ 32) ∧
    ([71, 79] : List Nat).length < 2 ^ 32 ∧
    (receive_data_bulk (MAGIC ++ PROTOCAL_VER ::
        (([([] : List Nat)].map (encodeSection 77)).flatten ++
          encodeSection 67 [71, 79])) =
      .ok [⟨[[]], [71, 79]⟩] ∧
      [] ∈ (SourceDataItem.mk [[]] [71, 79]).mime_type) :=
  ⟨by decide, by decide, by decide,
   c10_bulk_accepts_empty_mime [[]] [71, 79] (by decide) (by decide) (by decide)⟩

theorem c8_oneshot_witness :
    (receive_data_oneshot [71] [[], [116]] = .error .noValidMimeType ↔
      ∀ t ∈ [([] : List Nat), [116]], t = []) ∧
    receive_data_oneshot [71] [[], [116]] = .ok [⟨[[116]], [71]⟩] := by
  refine ⟨(c8_oneshot [71] [[], [116]]).1, ?_⟩
  have h := (c8_oneshot [71] [[], [116]]).2 (by decide)
  simpa using h
